import Mathlib

/-!
Verification of the URL-fallback HTTP forwarder `try_urls_with_cache`
(`zapi_webhook/views.py`).  The function is embedded shallowly:

* the HTTP client is an oracle `http : String → Outcome` giving, for each
  request URL, either the returned response or the transport error raised;
* the key-value cache is a snapshot `cache : String → Option String` of the
  store at the start of the call, and the call's effects on the store are
  recorded as an explicit list of `CacheOp` events;
* Python string primitives (`str.split(",")`, `str.strip()`,
  `str.startswith`) are re-implemented character-by-character with Python's
  semantics so that every definition reduces by computation.
-/

/-- The body and status code carried by an HTTP response
(`requests.Response`, as far as the forwarder inspects it). -/
structure Response where
  statusCode : Nat
  body : String
deriving DecidableEq

/-- What one call of `requests.request` on a given URL does: return a
response, or raise one of the transport-level exceptions the forwarder
catches. -/
inductive Outcome where
  | resp (r : Response)
  | timeout
  | connError (msg : String)
  | reqError (msg : String)
deriving DecidableEq

/-- The errors `try_urls_with_cache` can raise: `ValueError` for an empty
endpoint list, the per-attempt errors it records (`HTTPError` with the
status and response, `Timeout` naming the URL, the re-raised connection or
generic request errors), and the aggregate `RequestException` of the
fall-through branch. -/
inductive FbError where
  | valueError (msg : String)
  | httpError (status : Nat) (r : Response)
  | timeoutError (url : String)
  | connectionError (msg : String)
  | requestError (msg : String)
  | aggregateError (msg : String)
deriving DecidableEq

/-- A write effect on the cache store: `cache.set(key, url, ttl)` or
`cache.delete(key)`. -/
inductive CacheOp where
  | set (key url : String) (ttl : Nat)
  | delete (key : String)
deriving DecidableEq

/-- Python `str.isspace` members relevant to `str.strip()` (ASCII range). -/
def pyIsSpace (c : Char) : Bool :=
  c == ' ' || c == '\t' || c == '\n' || c == '\r' || c == '\x0b' || c == '\x0c'

/-- Python `s.split(",")` on the character list: split at every comma,
keeping empty segments (so `"".split(",") = [""]`). -/
def splitCommaAux (cur : List Char) : List Char → List (List Char)
  | [] => [cur.reverse]
  | c :: cs =>
    if c == ',' then cur.reverse :: splitCommaAux [] cs
    else splitCommaAux (c :: cur) cs

/-- Python `s.split(",")`. -/
def pySplitComma (s : String) : List String :=
  (splitCommaAux [] s.data).map (fun cs => String.mk cs)

/-- Python `s.strip()`: drop whitespace from both ends. -/
def pyStrip (s : String) : String :=
  String.mk (((s.data.dropWhile pyIsSpace).reverse.dropWhile pyIsSpace).reverse)

/-- `startsWithChars pat cs` is Python `cs.startswith(pat)` on character
lists. -/
def startsWithChars : List Char → List Char → Bool
  | [], _ => true
  | _ :: _, [] => false
  | p :: ps, c :: cs => p == c && startsWithChars ps cs

/-- Python `s.startswith(pat)`. -/
def pyStartsWith (pat s : String) : Bool :=
  startsWithChars pat.data s.data

/-- Line 132 of `views.py`: `[url.strip() for url in urls_string.split(",")
if url.strip()]`. -/
def stripUrls (s : String) : List String :=
  (pySplitComma s).filterMap
    (fun url => if pyStrip url = "" then none else some (pyStrip url))

/-- Lines 138-141 of `views.py`: prefix `http://` unless the entry already
starts with `http://` or `https://`. -/
def addScheme (url : String) : String :=
  if pyStartsWith "http://" url || pyStartsWith "https://" url then url
  else "http://" ++ url

/-- The parsed, normalized endpoint list of `try_urls_with_cache`
(lines 132 and 138-141 of `views.py`). -/
def parseUrls (s : String) : List String :=
  (stripUrls s).map addScheme

/-- Python truthiness of the value read from the cache (`if cached_url:`,
`cached_url and ...`): present and non-empty. -/
def truthy : Option String → Bool
  | none => false
  | some v => v != ""

/-- Lines 148-156 of `views.py`: the attempt order.  If the cached URL is
truthy and a member of the parsed list it goes first, followed by the other
URLs in configuration order with the cached one filtered out; otherwise the
plain parsed order is used. -/
def urlsToTry (cachedUrl : Option String) (urls : List String) : List String :=
  match cachedUrl with
  | some c =>
    if c != "" && urls.contains c then c :: urls.filter (fun u => u != c)
    else urls
  | none => urls

/-- The part of the loop output the caller observes: the returned response
or raised error, the URLs actually requested in order, and the cache
writes/deletes performed. -/
structure LoopOut where
  result : Except FbError Response
  attempts : List String
  cacheOps : List CacheOp

/-- Lines 158-239 of `views.py`: the attempt loop.  Each URL is requested
once; a status in `[200, 400)` returns immediately, writing the cache when
the URL differs from the cached value; every other outcome records an error
and continues.  On exhaustion the cache entry is deleted when the cached
value was truthy and the last recorded error (or, with none recorded, the
aggregate error) is raised. -/
def attemptLoop (http : String → Outcome) (cacheFullKey : String)
    (cachedUrl : Option String) (cacheTimeout : Nat) :
    List String → Option FbError → List String → LoopOut
  | [], lastExc, failedUrls =>
    let cleanup := if truthy cachedUrl then [CacheOp.delete cacheFullKey] else []
    match lastExc with
    | some e => ⟨Except.error e, [], cleanup⟩
    | none =>
      ⟨Except.error (FbError.aggregateError
        ("Todas as URLs falharam: " ++ String.intercalate ", " failedUrls)),
        [], cleanup⟩
  | url :: rest, _lastExc, failedUrls =>
    match http url with
    | Outcome.resp r =>
      if 200 ≤ r.statusCode ∧ r.statusCode < 400 then
        ⟨Except.ok r, [url],
          if cachedUrl = some url then []
          else [CacheOp.set cacheFullKey url cacheTimeout]⟩
      else
        let out := attemptLoop http cacheFullKey cachedUrl cacheTimeout rest
          (some (FbError.httpError r.statusCode r)) (failedUrls ++ [url])
        ⟨out.result, url :: out.attempts, out.cacheOps⟩
    | Outcome.timeout =>
      let out := attemptLoop http cacheFullKey cachedUrl cacheTimeout rest
        (some (FbError.timeoutError url)) (failedUrls ++ [url])
      ⟨out.result, url :: out.attempts, out.cacheOps⟩
    | Outcome.connError m =>
      let out := attemptLoop http cacheFullKey cachedUrl cacheTimeout rest
        (some (FbError.connectionError m)) (failedUrls ++ [url])
      ⟨out.result, url :: out.attempts, out.cacheOps⟩
    | Outcome.reqError m =>
      let out := attemptLoop http cacheFullKey cachedUrl cacheTimeout rest
        (some (FbError.requestError m)) (failedUrls ++ [url])
      ⟨out.result, url :: out.attempts, out.cacheOps⟩

/-- Everything one call of `try_urls_with_cache` does that the claims talk
about: the returned/raised value, the fixed attempt order, the URLs
requested, the cache keys read, and the cache writes/deletes. -/
structure CallResult where
  result : Except FbError Response
  order : List String
  attempts : List String
  cacheReads : List String
  cacheOps : List CacheOp

/-- Lines 103-239 of `views.py`: parse and normalize the endpoint string,
raise `ValueError` when nothing remains, read the namespaced cache key,
fix the attempt order, and run the attempt loop. -/
def try_urls_with_cache (http : String → Outcome)
    (cache : String → Option String) (urlsString : String) (cacheKey : String)
    (cacheTimeout : Nat) : CallResult :=
  let stripped := stripUrls urlsString
  if stripped = [] then
    ⟨Except.error (FbError.valueError "Nenhuma URL válida fornecida"),
      [], [], [], []⟩
  else
    let urls := stripped.map addScheme
    let cacheFullKey := "url_fallback_" ++ cacheKey
    let cachedUrl := cache cacheFullKey
    let order := urlsToTry cachedUrl urls
    let out := attemptLoop http cacheFullKey cachedUrl cacheTimeout order none []
    ⟨out.result, order, out.attempts, [cacheFullKey], out.cacheOps⟩

/-- Success classification of one attempt outcome: a response with status in
`[200, 400)`. -/
def isSuccess (o : Outcome) : Bool :=
  match o with
  | Outcome.resp r => decide (200 ≤ r.statusCode ∧ r.statusCode < 400)
  | _ => false

/-- The error the loop records for a failing attempt at `url` with outcome
`o`. -/
def errorOf (url : String) (o : Outcome) : FbError :=
  match o with
  | Outcome.resp r => FbError.httpError r.statusCode r
  | Outcome.timeout => FbError.timeoutError url
  | Outcome.connError m => FbError.connectionError m
  | Outcome.reqError m => FbError.requestError m

/-- Replay a recorded list of cache operations against a snapshot of the
store, yielding the store after the call. -/
def applyOp (c : String → Option String) : CacheOp → (String → Option String)
  | CacheOp.set k v _ => fun x => if x = k then some v else c x
  | CacheOp.delete k => fun x => if x = k then none else c x

/-- Fold a whole effect list over the store snapshot. -/
def applyOps (c : String → Option String) (ops : List CacheOp) :
    String → Option String :=
  ops.foldl applyOp c



/-- Decidable equality of call results, so concrete runs can be checked
by evaluation. -/

instance {e a : Type} [DecidableEq e] [DecidableEq a] : DecidableEq (Except e a) := fun x y =>
  match x, y with
  | Except.ok u, Except.ok v =>
    if h : u = v then Decidable.isTrue (by rw [h]) else Decidable.isFalse (by simp [h])
  | Except.ok _, Except.error _ => Decidable.isFalse (by simp)
  | Except.error _, Except.ok _ => Decidable.isFalse (by simp)
  | Except.error u, Except.error v =>
    if h : u = v then Decidable.isTrue (by rw [h]) else Decidable.isFalse (by simp [h])

/-- Parsing as worded by the spec: split the configuration string on
commas, trim whitespace from each segment, discard the blank segments, and
normalize each remaining entry that has no scheme to an http:// scheme,
keeping order. -/

def specParseUrls (s : String) : List String :=
  (((pySplitComma s).map pyStrip).filter (fun t => t != "")).map addScheme

/-! Concrete oracles used by the witnesses below. -/

def httpAllTimeout : String → Outcome := fun _ => Outcome.timeout

def cacheEmpty : String → Option String := fun _ => none

def cacheA : String → Option String :=
  fun x => if x = "url_fallback_k" then some "http://a" else none

def cacheB : String → Option String :=
  fun x => if x = "url_fallback_k" then some "http://b" else none

def httpAB : String → Outcome :=
  fun u => if u = "http://b" then Outcome.resp ⟨200, "ok"⟩ else Outcome.timeout

def http45 : String → Outcome :=
  fun u => if u = "http://a" then Outcome.resp ⟨404, "na"⟩
    else Outcome.resp ⟨500, "ne"⟩

/-! Helper lemmas about the attempt loop and the parsed data. -/

theorem attemptLoop_cons_fail (http : String → Outcome) (key : String)
    (cached : Option String) (ttl : Nat) (v : String) (rest : List String)
    (lastExc : Option FbError) (failed : List String)
    (hv : isSuccess (http v) = false) :
    attemptLoop http key cached ttl (v :: rest) lastExc failed =
      ⟨(attemptLoop http key cached ttl rest (some (errorOf v (http v)))
          (failed ++ [v])).result,
        v :: (attemptLoop http key cached ttl rest (some (errorOf v (http v)))
          (failed ++ [v])).attempts,
        (attemptLoop http key cached ttl rest (some (errorOf v (http v)))
          (failed ++ [v])).cacheOps⟩ := by
  cases hhv : http v with
  | resp rv =>
    have hb : ¬(200 ≤ rv.statusCode ∧ rv.statusCode < 400) := by
      simpa [isSuccess, hhv] using hv
    simp only [attemptLoop, hhv, if_neg hb, errorOf]
  | timeout => simp only [attemptLoop, hhv, errorOf]
  | connError m => simp only [attemptLoop, hhv, errorOf]
  | reqError m => simp only [attemptLoop, hhv, errorOf]

theorem attemptLoop_success (http : String → Outcome) (key : String)
    (cached : Option String) (ttl : Nat) (pre : List String) (u : String)
    (post : List String) (r : Response)
    (hpre : ∀ v ∈ pre, isSuccess (http v) = false)
    (hu : http u = Outcome.resp r)
    (hband : 200 ≤ r.statusCode ∧ r.statusCode < 400) :
    ∀ lastExc failed,
      attemptLoop http key cached ttl (pre ++ u :: post) lastExc failed =
        ⟨Except.ok r, pre ++ [u],
          if cached = some u then [] else [CacheOp.set key u ttl]⟩ := by
  induction pre with
  | nil =>
    intro lastExc failed
    simp only [List.nil_append, attemptLoop, hu, if_pos hband]
  | cons v pre ih =>
    intro lastExc failed
    have hv : isSuccess (http v) = false := hpre v (by simp)
    have hpre2 : ∀ w ∈ pre, isSuccess (http w) = false :=
      fun w hw => hpre w (by simp [hw])
    rw [List.cons_append, attemptLoop_cons_fail http key cached ttl v _ _ _ hv,
      ih hpre2]
    simp

theorem attemptLoop_all_fail (http : String → Outcome) (key : String)
    (cached : Option String) (ttl : Nat) :
    ∀ (l : List String) (u : String), l.getLast? = some u →
      (∀ v ∈ l, isSuccess (http v) = false) →
      ∀ lastExc failed,
        attemptLoop http key cached ttl l lastExc failed =
          ⟨Except.error (errorOf u (http u)), l,
            if truthy cached then [CacheOp.delete key] else []⟩ := by
  intro l
  induction l with
  | nil => intro u h; simp at h
  | cons v rest ih =>
    intro u hlast hfail lastExc failed
    have hv : isSuccess (http v) = false := hfail v (by simp)
    cases rest with
    | nil =>
      have hu : v = u := by simpa using hlast
      subst hu
      rw [attemptLoop_cons_fail http key cached ttl v _ _ _ hv]
      simp [attemptLoop]
    | cons w rest2 =>
      have hlast2 : (w :: rest2).getLast? = some u := by
        simpa [List.getLast?_cons_cons] using hlast
      have hfail2 : ∀ x ∈ w :: rest2, isSuccess (http x) = false :=
        fun x hx => hfail x (by simp [hx])
      rw [attemptLoop_cons_fail http key cached ttl v _ _ _ hv,
        ih u hlast2 hfail2]

theorem try_urls_unfold (http : String → Outcome)
    (cache : String → Option String) (s k : String) (ttl : Nat)
    (h : stripUrls s ≠ []) :
    try_urls_with_cache http cache s k ttl =
      ⟨(attemptLoop http ("url_fallback_" ++ k) (cache ("url_fallback_" ++ k))
          ttl (urlsToTry (cache ("url_fallback_" ++ k)) (parseUrls s)) none []).result,
        urlsToTry (cache ("url_fallback_" ++ k)) (parseUrls s),
        (attemptLoop http ("url_fallback_" ++ k) (cache ("url_fallback_" ++ k))
          ttl (urlsToTry (cache ("url_fallback_" ++ k)) (parseUrls s)) none []).attempts,
        ["url_fallback_" ++ k],
        (attemptLoop http ("url_fallback_" ++ k) (cache ("url_fallback_" ++ k))
          ttl (urlsToTry (cache ("url_fallback_" ++ k)) (parseUrls s)) none []).cacheOps⟩ := by
  simp only [try_urls_with_cache, parseUrls, if_neg h]

theorem mem_stripUrls_ne_empty {s u : String} (h : u ∈ stripUrls s) : u ≠ "" := by
  simp only [stripUrls, List.mem_filterMap] at h
  obtain ⟨url, _, hif⟩ := h
  by_cases hc : pyStrip url = ""
  · simp [hc] at hif
  · simp [hc] at hif
    exact hif ▸ hc

theorem append_scheme_ne_empty (t : String) : ("http://" ++ t) ≠ "" := by
  intro h
  have h2 : ("http://" ++ t).data = "".data := congrArg String.data h
  obtain ⟨cs⟩ := t
  simp [String.instAppend, String.append] at h2

theorem mem_parseUrls_ne_empty {s u : String} (h : u ∈ parseUrls s) : u ≠ "" := by
  simp only [parseUrls, List.mem_map] at h
  obtain ⟨t, ht, rfl⟩ := h
  unfold addScheme
  by_cases hc : pyStartsWith "http://" t || pyStartsWith "https://" t
  · simpa [hc] using mem_stripUrls_ne_empty ht
  · simpa [hc] using append_scheme_ne_empty t

theorem urlsToTry_mem_case {urls : List String} {c : String}
    (hc : c ∈ urls) :
    urlsToTry (some c) urls = c :: urls.filter (fun u => u != c) ∨ c = "" := by
  by_cases hce : c = ""
  · right; exact hce
  · left
    have h2 : (c != "" && urls.contains c) = true := by
      simp [hce, hc]
    simp only [urlsToTry]
    rw [if_pos h2]

theorem urlsToTry_not_mem {urls : List String} {cached : Option String}
    (h : ∀ c, cached = some c → c ∉ urls) :
    urlsToTry cached urls = urls := by
  cases cached with
  | none => rfl
  | some c =>
    have hc : c ∉ urls := h c rfl
    simp only [urlsToTry]
    have h3 : ¬(c != "" && urls.contains c) = true := by
      intro hx
      simp only [Bool.and_eq_true] at hx
      have := hx.2
      simp at this
      exact hc this
    rw [if_neg h3]

theorem mem_urlsToTry {urls : List String} {cached : Option String} {x : String} :
    x ∈ urlsToTry cached urls ↔ x ∈ urls := by
  cases cached with
  | none => simp [urlsToTry]
  | some c =>
    simp only [urlsToTry]
    by_cases h : (c != "" && urls.contains c) = true
    · rw [if_pos h]
      have hc : c ∈ urls := by
        have := h
        simp at this
        exact this.2
      constructor
      · intro hx
        rcases List.mem_cons.mp hx with rfl | hx2
        · exact hc
        · exact (List.mem_filter.mp hx2).1
      · intro hx
        by_cases hxc : x = c
        · exact hxc ▸ List.mem_cons_self _ _
        · exact List.mem_cons_of_mem _ (List.mem_filter.mpr ⟨hx, by simp [hxc]⟩)
    · rw [if_neg h]

theorem urlsToTry_ne_nil {urls : List String} {cached : Option String}
    (h : urls ≠ []) : urlsToTry cached urls ≠ [] := by
  cases cached with
  | none => exact h
  | some c =>
    simp only [urlsToTry]
    by_cases hcond : (c != "" && urls.contains c) = true
    · rw [if_pos hcond]; exact List.cons_ne_nil _ _
    · rw [if_neg hcond]; exact h

theorem urlsToTry_nodup {urls : List String} {cached : Option String}
    (h : urls.Nodup) : (urlsToTry cached urls).Nodup := by
  cases cached with
  | none => exact h
  | some c =>
    simp only [urlsToTry]
    by_cases hcond : (c != "" && urls.contains c) = true
    · rw [if_pos hcond]
      refine List.Nodup.cons ?_ (h.filter _)
      intro hc
      have := (List.mem_filter.mp hc).2
      simp at this
    · rw [if_neg hcond]; exact h

theorem attemptLoop_attempts_extends (http : String → Outcome) (key : String)
    (cached : Option String) (ttl : Nat) :
    ∀ (l : List String) (lastExc : Option FbError) (failed : List String),
      ∃ t, l = (attemptLoop http key cached ttl l lastExc failed).attempts ++ t := by
  intro l
  induction l with
  | nil =>
    intro lastExc failed
    cases lastExc <;> exact ⟨[], by simp [attemptLoop]⟩
  | cons v rest ih =>
    intro lastExc failed
    by_cases hv : isSuccess (http v) = true
    · cases hhv : http v with
      | resp rv =>
        have hb : 200 ≤ rv.statusCode ∧ rv.statusCode < 400 := by
          simpa [isSuccess, hhv] using hv
        refine ⟨rest, ?_⟩
        simp only [attemptLoop, hhv, if_pos hb]
        rfl
      | timeout => simp [isSuccess, hhv] at hv
      | connError m => simp [isSuccess, hhv] at hv
      | reqError m => simp [isSuccess, hhv] at hv
    · have hv2 : isSuccess (http v) = false := by
        cases h2 : isSuccess (http v)
        · rfl
        · exact absurd h2 hv
      rw [attemptLoop_cons_fail http key cached ttl v rest lastExc failed hv2]
      obtain ⟨t, ht⟩ := ih (some (errorOf v (http v))) (failed ++ [v])
      exact ⟨t, by simpa using ht⟩

theorem getLast?_cons_of_some {α : Type} {l : List α} {u : α}
    (h : l.getLast? = some u) (v : α) : (v :: l).getLast? = some u := by
  cases l with
  | nil => simp at h
  | cons a t => rw [List.getLast?_cons_cons]; exact h

theorem attemptLoop_ok_elim (http : String → Outcome) (key : String)
    (cached : Option String) (ttl : Nat) :
    ∀ (l : List String) (lastExc : Option FbError) (failed : List String)
      (r : Response),
      (attemptLoop http key cached ttl l lastExc failed).result = Except.ok r →
      ∃ u, (attemptLoop http key cached ttl l lastExc failed).attempts.getLast? = some u ∧
        http u = Outcome.resp r ∧ 200 ≤ r.statusCode ∧ r.statusCode < 400 ∧
        (attemptLoop http key cached ttl l lastExc failed).cacheOps =
          (if cached = some u then [] else [CacheOp.set key u ttl]) := by
  intro l
  induction l with
  | nil =>
    intro lastExc failed r h
    cases lastExc with
    | some e => simp [attemptLoop] at h
    | none => simp [attemptLoop] at h
  | cons v rest ih =>
    intro lastExc failed r h
    by_cases hv : isSuccess (http v) = true
    · cases hhv : http v with
      | resp rv =>
        have hb : 200 ≤ rv.statusCode ∧ rv.statusCode < 400 := by
          simpa [isSuccess, hhv] using hv
        have hr : rv = r := by
          simp only [attemptLoop, hhv, if_pos hb] at h
          exact Except.ok.inj h
        subst hr
        refine ⟨v, ?_, hhv, hb.1, hb.2, ?_⟩
        · simp only [attemptLoop, hhv, if_pos hb]
          rfl
        · simp only [attemptLoop, hhv, if_pos hb]
      | timeout => simp [isSuccess, hhv] at hv
      | connError m => simp [isSuccess, hhv] at hv
      | reqError m => simp [isSuccess, hhv] at hv
    · have hv2 : isSuccess (http v) = false := by
        cases h2 : isSuccess (http v)
        · rfl
        · exact absurd h2 hv
      rw [attemptLoop_cons_fail http key cached ttl v rest lastExc failed hv2] at h ⊢
      simp only at h
      obtain ⟨u, h1, h2, h3, h4, h5⟩ := ih (some (errorOf v (http v))) (failed ++ [v]) r h
      refine ⟨u, ?_, h2, h3, h4, by simpa using h5⟩
      have hne : (attemptLoop http key cached ttl rest (some (errorOf v (http v)))
          (failed ++ [v])).attempts ≠ [] := by
        intro hnil
        rw [hnil] at h1
        simp at h1
      simp only
      exact getLast?_cons_of_some h1 v

theorem attemptLoop_delete_elim (http : String → Outcome) (key : String)
    (cached : Option String) (ttl : Nat) :
    ∀ (l : List String) (lastExc : Option FbError) (failed : List String)
      (k2 : String),
      CacheOp.delete k2 ∈ (attemptLoop http key cached ttl l lastExc failed).cacheOps →
      k2 = key ∧ truthy cached = true ∧ ∀ v ∈ l, isSuccess (http v) = false := by
  intro l
  induction l with
  | nil =>
    intro lastExc failed k2 h
    have hops : (attemptLoop http key cached ttl [] lastExc failed).cacheOps =
        (if truthy cached then [CacheOp.delete key] else []) := by
      cases lastExc <;> simp [attemptLoop]
    rw [hops] at h
    by_cases ht : truthy cached = true
    · rw [if_pos ht] at h
      simp at h
      exact ⟨h, ht, by simp⟩
    · rw [if_neg ht] at h
      simp at h
  | cons v rest ih =>
    intro lastExc failed k2 h
    by_cases hv : isSuccess (http v) = true
    · cases hhv : http v with
      | resp rv =>
        have hb : 200 ≤ rv.statusCode ∧ rv.statusCode < 400 := by
          simpa [isSuccess, hhv] using hv
        rw [show (attemptLoop http key cached ttl (v :: rest) lastExc failed).cacheOps =
            (if cached = some v then [] else [CacheOp.set key v ttl]) by
          simp only [attemptLoop, hhv, if_pos hb]] at h
        by_cases hc : cached = some v
        · rw [if_pos hc] at h; simp at h
        · rw [if_neg hc] at h; simp at h
      | timeout => simp [isSuccess, hhv] at hv
      | connError m => simp [isSuccess, hhv] at hv
      | reqError m => simp [isSuccess, hhv] at hv
    · have hv2 : isSuccess (http v) = false := by
        cases h2 : isSuccess (http v)
        · rfl
        · exact absurd h2 hv
      rw [attemptLoop_cons_fail http key cached ttl v rest lastExc failed hv2] at h
      simp only at h
      obtain ⟨h1, h2, h3⟩ := ih (some (errorOf v (http v))) (failed ++ [v]) k2 h
      refine ⟨h1, h2, ?_⟩
      intro w hw
      rcases List.mem_cons.mp hw with rfl | hw2
      · exact hv2
      · exact h3 w hw2

theorem exists_first_success (p : String → Bool) :
    ∀ (l : List String), (∃ u ∈ l, p u = true) →
      ∃ pre u post, l = pre ++ u :: post ∧ (∀ v ∈ pre, p v = false) ∧
        p u = true := by
  intro l
  induction l with
  | nil => intro h; simp at h
  | cons a t ih =>
    intro h
    by_cases ha : p a = true
    · exact ⟨[], a, t, by simp, by simp, ha⟩
    · have ha2 : p a = false := by
        cases h2 : p a
        · rfl
        · exact absurd h2 ha
      obtain ⟨u, hu, hpu⟩ := h
      rcases List.mem_cons.mp hu with rfl | hu2
      · exact absurd hpu ha
      · obtain ⟨pre, u2, post, heq, hpre, hp2⟩ := ih ⟨u, hu2, hpu⟩
        refine ⟨a :: pre, u2, post, by simp [heq], ?_, hp2⟩
        intro v hv
        rcases List.mem_cons.mp hv with rfl | hv2
        · exact ha2
        · exact hpre v hv2

theorem stripUrls_eq_map_filter (s : String) :
    stripUrls s = ((pySplitComma s).map pyStrip).filter (fun t => t != "") := by
  unfold stripUrls
  induction pySplitComma s with
  | nil => rfl
  | cons a t ih =>
    by_cases ha : pyStrip a = ""
    · simp only [List.filterMap_cons, ha, if_pos rfl, List.map_cons, List.filter_cons]
      rw [ih]
      simp [ha]
    · simp only [List.filterMap_cons, if_neg ha, List.map_cons, List.filter_cons]
      rw [ih]
      simp [ha]

theorem applyOps_nil (c : String → Option String) : applyOps c [] = c := rfl

theorem try_urls_empty (http : String → Outcome)
    (cache : String → Option String) (s k : String) (ttl : Nat)
    (h : stripUrls s = []) :
    try_urls_with_cache http cache s k ttl =
      ⟨Except.error (FbError.valueError "Nenhuma URL válida fornecida"),
        [], [], [], []⟩ := by
  simp only [try_urls_with_cache, if_pos h]

theorem strip_ne_nil_of_parse {s : String} (h : parseUrls s ≠ []) :
    stripUrls s ≠ [] := by
  intro h2
  exact h (by simp [parseUrls, h2])

theorem try_urls_all_fail (http : String → Outcome) (cache : String → Option String)
    (s k : String) (ttl : Nat) (u : String)
    (hlast : (try_urls_with_cache http cache s k ttl).order.getLast? = some u)
    (hfail : ∀ v ∈ (try_urls_with_cache http cache s k ttl).order,
      isSuccess (http v) = false) :
    (try_urls_with_cache http cache s k ttl).result =
      Except.error (errorOf u (http u)) ∧
    (try_urls_with_cache http cache s k ttl).attempts =
      (try_urls_with_cache http cache s k ttl).order ∧
    (truthy (cache ("url_fallback_" ++ k)) = true →
      CacheOp.delete ("url_fallback_" ++ k) ∈
        (try_urls_with_cache http cache s k ttl).cacheOps) := by
  have hstrip : stripUrls s ≠ [] := by
    intro h0
    rw [try_urls_empty http cache s k ttl h0] at hlast
    simp at hlast
  rw [try_urls_unfold http cache s k ttl hstrip] at hlast hfail ⊢
  simp only at hlast hfail ⊢
  rw [attemptLoop_all_fail http ("url_fallback_" ++ k)
    (cache ("url_fallback_" ++ k)) ttl _ u hlast hfail none []]
  refine ⟨rfl, rfl, ?_⟩
  intro ht
  simp only [if_pos ht]
  simp

theorem errorOf_ne_aggregate (u : String) (o : Outcome) (m : String) :
    errorOf u o ≠ FbError.aggregateError m := by
  cases o <;> simp [errorOf]

/-- Claim C1: after parsing the endpoint list, if the cache holds a URL
for the namespaced key that is a member of the freshly parsed list, the
attempt order is that cached URL first followed by every other parsed URL
in original configuration order with the cached URL not duplicated; if the
cache is empty or holds a URL not in the parsed list, the attempt order is
exactly the parsed configuration order. -/

theorem fbC1 (http : String → Outcome) (cache : String → Option String)
    (s k : String) (ttl : Nat) :
    (∀ c, cache ("url_fallback_" ++ k) = some c → c ∈ parseUrls s →
      (try_urls_with_cache http cache s k ttl).order =
        c :: (parseUrls s).filter (fun u => u != c)) ∧
    ((∀ c, cache ("url_fallback_" ++ k) = some c → c ∉ parseUrls s) →
      (try_urls_with_cache http cache s k ttl).order = parseUrls s) := by
  constructor
  · intro c hc hmem
    have hne : parseUrls s ≠ [] := by
      intro h0
      rw [h0] at hmem
      simp at hmem
    rw [try_urls_unfold http cache s k ttl (strip_ne_nil_of_parse hne)]
    simp only
    rw [hc]
    rcases urlsToTry_mem_case hmem with h | h
    · exact h
    · exact absurd h (mem_parseUrls_ne_empty hmem)
  · intro hall
    by_cases hstrip : stripUrls s = []
    · rw [try_urls_empty http cache s k ttl hstrip]
      simp [parseUrls, hstrip]
    · rw [try_urls_unfold http cache s k ttl hstrip]
      simp only
      exact urlsToTry_not_mem (fun c hc => hall c hc)

/-- Witness for C1 at concrete inputs: a cached member is moved to the
front, and an empty cache leaves the configuration order. -/

theorem fbC1_witness :
    (try_urls_with_cache httpAllTimeout cacheB "a,b" "k" 300).order =
      "http://b" :: (parseUrls "a,b").filter (fun u => u != "http://b") ∧
    (try_urls_with_cache httpAllTimeout cacheEmpty "a,b" "k" 300).order =
      parseUrls "a,b" := by
  constructor
  · exact (fbC1 httpAllTimeout cacheB "a,b" "k" 300).1 "http://b"
      (by decide) (by decide)
  · exact (fbC1 httpAllTimeout cacheEmpty "a,b" "k" 300).2
      (fun c hc => by simp [cacheEmpty] at hc)

/-- Claim C2: when every attempted endpoint fails, the call raises exactly
the error recorded for the last endpoint in attempt order (earlier
per-attempt errors are never propagated), every endpoint of the order was
attempted, and the cache entry for the namespaced key is deleted when a
cached value existed at the start of the call. -/

theorem fbC2 (http : String → Outcome) (cache : String → Option String)
    (s k : String) (ttl : Nat) (u : String)
    (hlast : (try_urls_with_cache http cache s k ttl).order.getLast? = some u)
    (hfail : ∀ v ∈ (try_urls_with_cache http cache s k ttl).order,
      isSuccess (http v) = false) :
    (try_urls_with_cache http cache s k ttl).result =
      Except.error (errorOf u (http u)) ∧
    (try_urls_with_cache http cache s k ttl).attempts =
      (try_urls_with_cache http cache s k ttl).order ∧
    (truthy (cache ("url_fallback_" ++ k)) = true →
      CacheOp.delete ("url_fallback_" ++ k) ∈
        (try_urls_with_cache http cache s k ttl).cacheOps) :=
  try_urls_all_fail http cache s k ttl u hlast hfail

/-- Witness for C2: endpoints [A returning 404, B returning 500] with A
cached; the raised error reflects the failure of B, the last attempted,
and the cache entry is deleted. -/

theorem fbC2_witness :
    (try_urls_with_cache http45 cacheA "a,b" "k" 300).result =
      Except.error (errorOf "http://b" (http45 "http://b")) ∧
    (try_urls_with_cache http45 cacheA "a,b" "k" 300).attempts =
      (try_urls_with_cache http45 cacheA "a,b" "k" 300).order ∧
    CacheOp.delete ("url_fallback_" ++ "k") ∈
      (try_urls_with_cache http45 cacheA "a,b" "k" 300).cacheOps := by
  have h := fbC2 http45 cacheA "a,b" "k" 300 "http://b" (by decide) (by decide)
  exact ⟨h.1, h.2.1, h.2.2 (by decide)⟩

/-- Claim C3: on success the cache is written with the given TTL if and
only if the succeeding URL differs from the value read from the cache at
the start of the call (no write when they are equal), and a cache delete
happens only when every endpoint in the attempt order fails. -/

theorem fbC3 (http : String → Outcome) (cache : String → Option String)
    (s k : String) (ttl : Nat) :
    (∀ r : Response, (try_urls_with_cache http cache s k ttl).result = Except.ok r →
      ∃ u, (try_urls_with_cache http cache s k ttl).attempts.getLast? = some u ∧
        (try_urls_with_cache http cache s k ttl).cacheOps =
          (if cache ("url_fallback_" ++ k) = some u then []
            else [CacheOp.set ("url_fallback_" ++ k) u ttl])) ∧
    (∀ k2, CacheOp.delete k2 ∈ (try_urls_with_cache http cache s k ttl).cacheOps →
      ∀ v ∈ (try_urls_with_cache http cache s k ttl).order,
        isSuccess (http v) = false) := by
  constructor
  · intro r hr
    have hstrip : stripUrls s ≠ [] := by
      intro h0
      rw [try_urls_empty http cache s k ttl h0] at hr
      simp at hr
    rw [try_urls_unfold http cache s k ttl hstrip] at hr ⊢
    simp only at hr ⊢
    obtain ⟨u, h1, _, _, _, h5⟩ := attemptLoop_ok_elim http ("url_fallback_" ++ k)
      (cache ("url_fallback_" ++ k)) ttl _ none [] r hr
    exact ⟨u, h1, h5⟩
  · intro k2 hmem
    by_cases hstrip : stripUrls s = []
    · rw [try_urls_empty http cache s k ttl hstrip] at hmem
      simp at hmem
    · rw [try_urls_unfold http cache s k ttl hstrip] at hmem ⊢
      simp only at hmem ⊢
      exact (attemptLoop_delete_elim http ("url_fallback_" ++ k)
        (cache ("url_fallback_" ++ k)) ttl _ none [] k2 hmem).2.2

/-- Witness for C3: a success on a non-cached URL produces exactly the
conditional write, and a concrete delete only happens with every attempted
endpoint failing. -/

theorem fbC3_witness :
    (∃ u, (try_urls_with_cache httpAB cacheEmpty "a,b" "k" 300).attempts.getLast? =
        some u ∧
      (try_urls_with_cache httpAB cacheEmpty "a,b" "k" 300).cacheOps =
        (if cacheEmpty ("url_fallback_" ++ "k") = some u then []
          else [CacheOp.set ("url_fallback_" ++ "k") u 300])) ∧
    (∀ v ∈ (try_urls_with_cache http45 cacheA "a,b" "k" 300).order,
      isSuccess (http45 v) = false) :=
  ⟨(fbC3 httpAB cacheEmpty "a,b" "k" 300).1 ⟨200, "ok"⟩ (by decide),
    (fbC3 http45 cacheA "a,b" "k" 300).2 ("url_fallback_" ++ "k") (by decide)⟩

/-- Claim C4: an attempt whose status code lies in [200, 400) is a success
whose response is returned immediately; endpoints after it in the attempt
order are never tried, while every failing endpoint before it was attempted
and iteration continued past each of them. -/

theorem fbC4 (http : String → Outcome) (cache : String → Option String)
    (s k : String) (ttl : Nat) (pre : List String) (u : String)
    (post : List String) (r : Response)
    (horder : (try_urls_with_cache http cache s k ttl).order = pre ++ u :: post)
    (hpre : ∀ v ∈ pre, isSuccess (http v) = false)
    (hu : http u = Outcome.resp r)
    (hband : 200 ≤ r.statusCode ∧ r.statusCode < 400) :
    (try_urls_with_cache http cache s k ttl).result = Except.ok r ∧
    (try_urls_with_cache http cache s k ttl).attempts = pre ++ [u] := by
  have hstrip : stripUrls s ≠ [] := by
    intro h0
    rw [try_urls_empty http cache s k ttl h0] at horder
    simp at horder
  rw [try_urls_unfold http cache s k ttl hstrip] at horder ⊢
  simp only at horder ⊢
  rw [horder,
    attemptLoop_success http ("url_fallback_" ++ k)
      (cache ("url_fallback_" ++ k)) ttl pre u post r hpre hu hband]
  exact ⟨rfl, rfl⟩

/-- Witness for C4: endpoints [A timing out, B returning 200] return the
response of B after attempting exactly A then B. -/

theorem fbC4_witness :
    (try_urls_with_cache httpAB cacheEmpty "a,b" "k" 300).result =
      Except.ok ⟨200, "ok"⟩ ∧
    (try_urls_with_cache httpAB cacheEmpty "a,b" "k" 300).attempts =
      ["http://a"] ++ ["http://b"] :=
  fbC4 httpAB cacheEmpty "a,b" "k" 300 ["http://a"] "http://b" [] ⟨200, "ok"⟩
    (by decide) (by decide) (by decide) (by decide)

/-- Claim C5: an endpoint string that reduces to zero entries after
splitting on commas, trimming and discarding blanks (in particular an
empty or whitespace-only string) makes the call fail with the
ValueError-class configuration error and perform no HTTP request, no cache
read and no cache write. -/

theorem fbC5 (http : String → Outcome) (cache : String → Option String)
    (s k : String) (ttl : Nat) (h : stripUrls s = []) :
    (try_urls_with_cache http cache s k ttl).result =
      Except.error (FbError.valueError "Nenhuma URL válida fornecida") ∧
    (try_urls_with_cache http cache s k ttl).attempts = [] ∧
    (try_urls_with_cache http cache s k ttl).cacheReads = [] ∧
    (try_urls_with_cache http cache s k ttl).cacheOps = [] := by
  rw [try_urls_empty http cache s k ttl h]
  exact ⟨rfl, rfl, rfl, rfl⟩

/-- Witness for C5 at a whitespace-and-commas-only endpoint string. -/

theorem fbC5_witness :
    (try_urls_with_cache httpAllTimeout cacheEmpty " ,  ," "k" 300).result =
      Except.error (FbError.valueError "Nenhuma URL válida fornecida") ∧
    (try_urls_with_cache httpAllTimeout cacheEmpty " ,  ," "k" 300).attempts = [] ∧
    (try_urls_with_cache httpAllTimeout cacheEmpty " ,  ," "k" 300).cacheReads = [] ∧
    (try_urls_with_cache httpAllTimeout cacheEmpty " ,  ," "k" 300).cacheOps = [] :=
  fbC5 httpAllTimeout cacheEmpty " ,  ," "k" 300 (by decide)

/-- Claim C6: parsing splits on commas, trims whitespace from each
segment, discards blank segments, prefixes each entry without a recognized
scheme with http:// while leaving qualified entries unchanged, and
preserves order: the source parse equals `specParseUrls`, which spells the
pipeline in the map/filter wording of the spec. -/

theorem fbC6 (s : String) : parseUrls s = specParseUrls s := by
  unfold parseUrls specParseUrls
  rw [stripUrls_eq_map_filter]

/-- Claim C7 as stated fails on the code: with the configuration "a,a",
an empty cache and every request timing out, the single endpoint http://a
receives two requests within one call. -/

theorem fbC7_counterexample :
    (try_urls_with_cache httpAllTimeout cacheEmpty "a,a" "k" 300).attempts =
      ["http://a", "http://a"] ∧
    (try_urls_with_cache httpAllTimeout cacheEmpty "a,a" "k" 300).attempts.count
      "http://a" = 2 := by
  exact ⟨by decide, by decide⟩

/-- Claim C7 (amended): when the parsed endpoint list is duplicate-free,
the attempt order is duplicate-free, the attempted URLs are an initial
segment of the attempt order (attempts are strictly sequential with no
reordering), and hence no endpoint receives a second request within the
call. -/

theorem fbC7 (http : String → Outcome) (cache : String → Option String)
    (s k : String) (ttl : Nat) (h : (parseUrls s).Nodup) :
    (try_urls_with_cache http cache s k ttl).order.Nodup ∧
    (∃ t, (try_urls_with_cache http cache s k ttl).order =
      (try_urls_with_cache http cache s k ttl).attempts ++ t) ∧
    (try_urls_with_cache http cache s k ttl).attempts.Nodup := by
  by_cases hstrip : stripUrls s = []
  · rw [try_urls_empty http cache s k ttl hstrip]
    exact ⟨List.nodup_nil, ⟨[], rfl⟩, List.nodup_nil⟩
  · rw [try_urls_unfold http cache s k ttl hstrip]
    simp only
    have hnodup := @urlsToTry_nodup (parseUrls s) (cache ("url_fallback_" ++ k)) h
    obtain ⟨t, ht⟩ := attemptLoop_attempts_extends http ("url_fallback_" ++ k)
      (cache ("url_fallback_" ++ k)) ttl
      (urlsToTry (cache ("url_fallback_" ++ k)) (parseUrls s)) none []
    refine ⟨hnodup, ⟨t, ht⟩, ?_⟩
    rw [ht] at hnodup
    exact hnodup.of_append_left

/-- Witness for the amended C7 at a duplicate-free configuration. -/

theorem fbC7_witness :
    (try_urls_with_cache httpAllTimeout cacheEmpty "a,b" "k" 300).order.Nodup ∧
    (∃ t, (try_urls_with_cache httpAllTimeout cacheEmpty "a,b" "k" 300).order =
      (try_urls_with_cache httpAllTimeout cacheEmpty "a,b" "k" 300).attempts ++ t) ∧
    (try_urls_with_cache httpAllTimeout cacheEmpty "a,b" "k" 300).attempts.Nodup :=
  fbC7 httpAllTimeout cacheEmpty "a,b" "k" 300 (by decide)

/-- Claim C8: with the endpoint string and the per-endpoint outcomes
unchanged and some endpoint succeeding, running the call twice leaves the
cache state after the second call identical to the state after the first,
and the second call performs no cache operation at all. -/

theorem fbC8 (http : String → Outcome) (cache : String → Option String)
    (s k : String) (ttl : Nat)
    (h : ∃ u ∈ parseUrls s, isSuccess (http u) = true) :
    (try_urls_with_cache http
      (applyOps cache (try_urls_with_cache http cache s k ttl).cacheOps)
      s k ttl).cacheOps = [] ∧
    (∀ x, applyOps
        (applyOps cache (try_urls_with_cache http cache s k ttl).cacheOps)
        (try_urls_with_cache http
          (applyOps cache (try_urls_with_cache http cache s k ttl).cacheOps)
          s k ttl).cacheOps x =
      applyOps cache (try_urls_with_cache http cache s k ttl).cacheOps x) := by
  obtain ⟨u0, hu0mem, hu0succ⟩ := h
  have hne : parseUrls s ≠ [] := by
    intro h0
    rw [h0] at hu0mem
    simp at hu0mem
  have hstrip := strip_ne_nil_of_parse hne
  have horder1mem : u0 ∈ urlsToTry (cache ("url_fallback_" ++ k)) (parseUrls s) :=
    mem_urlsToTry.mpr hu0mem
  obtain ⟨pre, u1, post, heq, hpre, hsucc⟩ :=
    exists_first_success (fun v => isSuccess (http v)) _ ⟨u0, horder1mem, hu0succ⟩
  cases hhu1 : http u1 with
  | timeout => simp [isSuccess, hhu1] at hsucc
  | connError m => simp [isSuccess, hhu1] at hsucc
  | reqError m => simp [isSuccess, hhu1] at hsucc
  | resp r1 =>
    have hband : 200 ≤ r1.statusCode ∧ r1.statusCode < 400 := by
      simpa [isSuccess, hhu1] using hsucc
    have hpre2 : ∀ v ∈ pre, isSuccess (http v) = false := fun v hv => hpre v hv
    have hloop1 := attemptLoop_success http ("url_fallback_" ++ k)
      (cache ("url_fallback_" ++ k)) ttl pre u1 post r1 hpre2 hhu1 hband none []
    have hops1 : (try_urls_with_cache http cache s k ttl).cacheOps =
        (if cache ("url_fallback_" ++ k) = some u1 then []
          else [CacheOp.set ("url_fallback_" ++ k) u1 ttl]) := by
      rw [try_urls_unfold http cache s k ttl hstrip]
      simp only
      rw [heq, hloop1]
    have hu1order : u1 ∈ urlsToTry (cache ("url_fallback_" ++ k)) (parseUrls s) := by
      rw [heq]
      exact List.mem_append_right pre (List.mem_cons_self u1 post)
    have hu1mem : u1 ∈ parseUrls s := mem_urlsToTry.mp hu1order
    have hu1ne : u1 ≠ "" := mem_parseUrls_ne_empty hu1mem
    have hcache1 : applyOps cache
        (try_urls_with_cache http cache s k ttl).cacheOps
        ("url_fallback_" ++ k) = some u1 := by
      rw [hops1]
      by_cases hc : cache ("url_fallback_" ++ k) = some u1
      · rw [if_pos hc, applyOps_nil]
        exact hc
      · rw [if_neg hc]
        simp [applyOps, applyOp]
    have horder2 : urlsToTry (applyOps cache
          (try_urls_with_cache http cache s k ttl).cacheOps
          ("url_fallback_" ++ k)) (parseUrls s) =
        u1 :: (parseUrls s).filter (fun u => u != u1) := by
      rw [hcache1]
      rcases urlsToTry_mem_case hu1mem with h2 | h2
      · exact h2
      · exact absurd h2 hu1ne
    have hloop2 := attemptLoop_success http ("url_fallback_" ++ k)
      (applyOps cache (try_urls_with_cache http cache s k ttl).cacheOps
        ("url_fallback_" ++ k)) ttl [] u1
      ((parseUrls s).filter (fun u => u != u1)) r1 (by simp) hhu1 hband none []
    simp only [List.nil_append] at hloop2
    have hops2 : (try_urls_with_cache http
        (applyOps cache (try_urls_with_cache http cache s k ttl).cacheOps)
        s k ttl).cacheOps = [] := by
      rw [try_urls_unfold http
        (applyOps cache (try_urls_with_cache http cache s k ttl).cacheOps)
        s k ttl hstrip]
      simp only
      rw [horder2, hloop2]
      simp [hcache1]
    refine ⟨hops2, ?_⟩
    intro x
    rw [hops2, applyOps_nil]

/-- Witness for C8 at a concrete healthy endpoint set. -/

theorem fbC8_witness :
    (try_urls_with_cache httpAB
      (applyOps cacheEmpty
        (try_urls_with_cache httpAB cacheEmpty "a,b" "k" 300).cacheOps)
      "a,b" "k" 300).cacheOps = [] ∧
    (∀ x, applyOps
        (applyOps cacheEmpty
          (try_urls_with_cache httpAB cacheEmpty "a,b" "k" 300).cacheOps)
        (try_urls_with_cache httpAB
          (applyOps cacheEmpty
            (try_urls_with_cache httpAB cacheEmpty "a,b" "k" 300).cacheOps)
          "a,b" "k" 300).cacheOps x =
      applyOps cacheEmpty
        (try_urls_with_cache httpAB cacheEmpty "a,b" "k" 300).cacheOps x) :=
  fbC8 httpAB cacheEmpty "a,b" "k" 300 (by decide)

/-- Claim C9: when the parsed endpoint list is non-empty and the attempt
loop exhausts without a success, the error raised is the per-attempt error
recorded for the last attempted endpoint, and the generic aggregate error
branch is unreachable. -/

theorem fbC9 (http : String → Outcome) (cache : String → Option String)
    (s k : String) (ttl : Nat) (hne : parseUrls s ≠ [])
    (hfail : ∀ v ∈ (try_urls_with_cache http cache s k ttl).order,
      isSuccess (http v) = false) :
    (∃ u, (try_urls_with_cache http cache s k ttl).order.getLast? = some u ∧
      (try_urls_with_cache http cache s k ttl).result =
        Except.error (errorOf u (http u))) ∧
    (∀ m, (try_urls_with_cache http cache s k ttl).result ≠
      Except.error (FbError.aggregateError m)) := by
  have hstrip : stripUrls s ≠ [] := strip_ne_nil_of_parse hne
  have horder : (try_urls_with_cache http cache s k ttl).order ≠ [] := by
    rw [try_urls_unfold http cache s k ttl hstrip]
    exact urlsToTry_ne_nil hne
  obtain ⟨u, hu⟩ : ∃ u,
      (try_urls_with_cache http cache s k ttl).order.getLast? = some u := by
    cases hlast : (try_urls_with_cache http cache s k ttl).order.getLast? with
    | none => exact absurd (List.getLast?_eq_none_iff.mp hlast) horder
    | some u => exact ⟨u, rfl⟩
  have h := try_urls_all_fail http cache s k ttl u hu hfail
  refine ⟨⟨u, hu, h.1⟩, ?_⟩
  intro m hcontra
  rw [h.1] at hcontra
  exact errorOf_ne_aggregate u (http u) m (Except.error.inj hcontra)

/-- Witness for C9 at two concrete failing endpoints. -/

theorem fbC9_witness :
    (∃ u, (try_urls_with_cache http45 cacheEmpty "a,b" "k" 300).order.getLast? =
        some u ∧
      (try_urls_with_cache http45 cacheEmpty "a,b" "k" 300).result =
        Except.error (errorOf u (http45 u))) ∧
    (∀ m, (try_urls_with_cache http45 cacheEmpty "a,b" "k" 300).result ≠
      Except.error (FbError.aggregateError m)) :=
  fbC9 http45 cacheEmpty "a,b" "k" 300 (by decide) (by decide)

/-- Claim C10: normalization recognizes only the exact lowercase prefixes
http:// and https://; every entry not starting with one of those two
strings, including ftp://host and the differently cased HTTP://host, is
prefixed with http://, and the compound string is then used verbatim as
the request URL. -/

theorem fbC10 :
    (∀ u : String, pyStartsWith "http://" u = false →
      pyStartsWith "https://" u = false → addScheme u = "http://" ++ u) ∧
    addScheme "ftp://host" = "http://ftp://host" ∧
    addScheme "HTTP://host" = "http://HTTP://host" ∧
    (try_urls_with_cache httpAllTimeout cacheEmpty "ftp://host" "k" 300).attempts =
      ["http://ftp://host"] := by
  refine ⟨?_, by decide, by decide, by decide⟩
  intro u h1 h2
  simp [addScheme, h1, h2]

/-- Witness for C10 at an entry with a third scheme. -/

theorem fbC10_witness :
    addScheme "gopher://x" = "http://" ++ "gopher://x" :=
  fbC10.1 "gopher://x" (by decide) (by decide)
